import Mathlib

/-!
Shallow embedding of the core logic of `bot.py` (music advent-calendar bot):
the track catalog, per-recipient rotation (`choose_track_for_user`), the vote
ledger (`vote_callback`), the top-5 ranking (`build_top5_text`), and the two
broadcast jobs (`broadcast_slot_job`, `broadcast_top5_to_all`).

Modelling conventions:
- Python dicts used as key-value stores become association lists with
  first-match lookup and replace-first-or-append update, matching dict
  semantics for the operations the code performs.
- Python sets kept in JSON as lists are modelled as lists with membership
  semantics (add-if-absent).
- `random.choice(xs)` is modelled by an injected index `pick`, the chosen
  element being `xs[pick % len(xs)]`.
- The Telegram transport is modelled by an injected send-outcome function;
  `send_track_to_chat` catches Forbidden (unsubscribing the chat) and all
  other exceptions, mirroring the `try`/`except` blocks in the source.
- Python `list.sort(key=...)` is a stable sort; it is modelled by
  `List.insertionSort` with the corresponding total preorder, which is the
  stable sort for that key.
- Functions that can raise (the `int(...)` sort key in
  `get_tracks_for_date_slot`) return `Option`, `none` meaning an exception.
-/

namespace AdventBot

/-- A loaded row of `tracks.csv` (fields stripped at load, see `load_tracks`). -/
structure Track where
  id : String
  date : String
  slot : String
  title_artist : String
  video_link : String
  audio : String
  message : String
deriving DecidableEq, Repr, Inhabited

/-- A value of Python's `datetime.date`; comparison is lexicographic. -/
structure PyDate where
  year : Nat
  month : Nat
  day : Nat
deriving DecidableEq, Repr

/-- Python `date` comparison `a < b`. -/
def PyDate.ltb (a b : PyDate) : Bool :=
  decide (a.year < b.year) ||
    (decide (a.year = b.year) &&
      (decide (a.month < b.month) ||
        (decide (a.month = b.month) && decide (a.day < b.day))))

/-- `BROADCAST_START = date(2025, 12, 16)`. -/
def BROADCAST_START : PyDate := ⟨2025, 12, 16⟩

/-- `BROADCAST_END = date(2025, 12, 26)`. -/
def BROADCAST_END : PyDate := ⟨2025, 12, 26⟩

/-- Zero-padded two-digit rendering used by `date.isoformat`. -/
def pad2 (n : Nat) : String :=
  if n < 10 then "0" ++ toString n else toString n

/-- `date.isoformat()`: `YYYY-MM-DD`. -/
def PyDate.iso (d : PyDate) : String :=
  toString d.year ++ "-" ++ pad2 d.month ++ "-" ++ pad2 d.day

/-- Python `str.strip()` on the character list of a string. -/
def pyStrip (s : String) : List Char :=
  ((s.data.dropWhile Char.isWhitespace).reverse.dropWhile
    Char.isWhitespace).reverse

/-- Python `int(s)` on a string: strip, optional sign, decimal digits;
`none` models a raised `ValueError`. -/
def pyInt (s : String) : Option Int :=
  let cs := pyStrip s
  let signCore : Bool × List Char :=
    match cs with
    | '-' :: rest => (true, rest)
    | '+' :: rest => (false, rest)
    | _ => (false, cs)
  if signCore.2 = [] then none
  else if signCore.2.all Char.isDigit then
    let n : Nat := signCore.2.foldl (fun acc c => acc * 10 + (c.toNat - 48)) 0
    some (if signCore.1 then -(n : Int) else (n : Int))
  else none

/-- The sort key `int(x.get("id") or 0)` of `get_tracks_for_date_slot`. -/
def trackKey (t : Track) : Option Int :=
  if t.id = "" then some 0 else pyInt t.id

/-- The content filter of `get_tracks_for_date_slot`:
`title_artist or video_link or audio` after stripping. -/
def hasContent (t : Track) : Bool :=
  decide (pyStrip t.title_artist ≠ []) || decide (pyStrip t.video_link ≠ []) ||
    decide (pyStrip t.audio ≠ [])

/-- The per-track condition of the filter loop in `get_tracks_for_date_slot`. -/
def matchesDateSlot (day_iso slot : String) (t : Track) : Bool :=
  decide (t.date = day_iso) && decide (t.slot = slot) && hasContent t

/-- `get_tracks_for_date_slot`: filter the catalog by date, slot and content,
then `out.sort(key=lambda x: int(x.get("id") or 0))`. The sort key raises
`ValueError` on a non-numeric, non-empty id, modelled by `none`. -/
def get_tracks_for_date_slot (tracks : List Track) (day_iso slot : String) :
    Option (List Track) :=
  let out := tracks.filter (matchesDateSlot day_iso slot)
  if out.all (fun t => (trackKey t).isSome) then
    some (List.insertionSort
      (fun a b => (trackKey a).getD 0 ≤ (trackKey b).getD 0) out)
  else none

/-- First-match lookup in an association list (Python dict `get`). -/
def assocGet {κ ε : Type} [DecidableEq κ] : List (κ × ε) → κ → Option ε
  | [], _ => none
  | p :: rest, c => if p.1 = c then some p.2 else assocGet rest c

/-- Replace-first-or-append update in an association list (Python dict
assignment `d[k] = v`). -/
def assocSet {κ ε : Type} [DecidableEq κ] : List (κ × ε) → κ → ε → List (κ × ε)
  | [], c, e => [(c, e)]
  | p :: rest, c, e => if p.1 = c then (c, e) :: rest else p :: assocSet rest c e

/-- One record of `broadcast_log.json`:
`{"last_date": "YYYY-MM-DD", "sent_slots": [...]}`. -/
structure LogEntry where
  last_date : String
  sent_slots : List String
deriving DecidableEq, Repr

/-- The broadcast log store, keyed by chat id. -/
abbrev BroadcastLog := List (Int × LogEntry)

/-- The per-subscriber entry after the date-reset guard in the broadcast
loops: `log.get(key, {"last_date": "", "sent_slots": []})`, replaced by a
fresh entry when `last_date != today_iso`. -/
def resetEntry (log : BroadcastLog) (c : Int) (today_iso : String) : LogEntry :=
  if ((assocGet log c).getD ⟨"", []⟩).last_date ≠ today_iso then ⟨today_iso, []⟩
  else (assocGet log c).getD ⟨"", []⟩

/-- Whether a chat would be skipped for `slot` today: the idempotent-skip
test `slot in entry.get("sent_slots", [])` after the date-reset guard. -/
def markedB (log : BroadcastLog) (c : Int) (today_iso slot : String) : Bool :=
  decide (slot ∈ (resetEntry log c today_iso).sent_slots)

/-- Result of one attempted Telegram send, as distinguished by the
`except` clauses of the source. -/
inductive SendOutcome
  | success
  | forbidden
  | badRequest
  | otherError
deriving DecidableEq, Repr

/-- `send_track_to_chat`: all exceptions are caught; `Forbidden` removes the
chat from the subscribers store and saves it. Returns the updated
subscribers store. -/
def send_track_to_chat (sb : Int → Track → SendOutcome) (chat : Int)
    (t : Track) (subs : List Int) : List Int :=
  match sb chat t with
  | .forbidden => if chat ∈ subs then subs.erase chat else subs
  | _ => subs

/-- Result of one run of `broadcast_slot_job`: final subscribers store,
final broadcast log, the `sent_chats` and `skipped_chats` counters, and the
sequence of send attempts `(chat_id, track)` in order. -/
structure SlotJobResult where
  store : List Int
  log : BroadcastLog
  sent : Nat
  skipped : Nat
  attempts : List (Int × Track)
deriving DecidableEq, Repr

/-- The `for chat_id in list(subs)` loop of `broadcast_slot_job`. -/
def broadcastSlotLoop (sb : Int → Track → SendOutcome) (ts : List Track)
    (slot today_iso : String) :
    List Int → List Int → BroadcastLog → SlotJobResult
  | [], store, log => ⟨store, log, 0, 0, []⟩
  | c :: rest, store, log =>
    let e := resetEntry log c today_iso
    if slot ∈ e.sent_slots then
      let r := broadcastSlotLoop sb ts slot today_iso rest store log
      ⟨r.store, r.log, r.sent, r.skipped + 1, r.attempts⟩
    else
      let store2 := ts.foldl (fun st t => send_track_to_chat sb c t st) store
      let log2 := assocSet log c ⟨e.last_date, e.sent_slots ++ [slot]⟩
      let r := broadcastSlotLoop sb ts slot today_iso rest store2 log2
      ⟨r.store, r.log, r.sent + 1, r.skipped,
        ts.map (fun t => (c, t)) ++ r.attempts⟩

/-- `broadcast_slot_job` for slot `slot` on date `today` over the state
`(store, log)` (subscribers store, broadcast log). `none` models the
uncaught exception from the sort key in `get_tracks_for_date_slot`. -/
def broadcast_slot_job (sb : Int → Track → SendOutcome) (tracks : List Track)
    (slot : String) (today : PyDate) (store : List Int) (log : BroadcastLog) :
    Option SlotJobResult :=
  if PyDate.ltb today BROADCAST_START || PyDate.ltb BROADCAST_END today then
    some ⟨store, log, 0, 0, []⟩
  else
    match get_tracks_for_date_slot tracks today.iso slot with
    | none => none
    | some ts =>
      if ts.isEmpty then some ⟨store, log, 0, 0, []⟩
      else if store.isEmpty then some ⟨store, log, 0, 0, []⟩
      else broadcastSlotLoop sb ts slot today.iso store store log

/-- One record of `user_history.json`:
`{last_date, track_id, used_track_ids}`. -/
structure UserEntry where
  last_date : String
  track_id : String
  used_track_ids : List String
deriving DecidableEq, Repr

/-- The same-day shortcut of `choose_track_for_user`: when the stored
`last_date` equals today, return the first catalog track with the stored
`track_id`. -/
def sameDayTrack (tracks : List Track) (today_date : String) :
    Option UserEntry → Option Track
  | some e =>
    if e.last_date = today_date then tracks.find? (fun t => t.id == e.track_id)
    else none
  | none => none

/-- `set(user_entry.get("used_track_ids", []))` as a list with set
membership semantics. -/
def usedOf : Option UserEntry → List String
  | some e => e.used_track_ids
  | none => []

/-- `choose_track_for_user(chat_id, today_date)` for one recipient, over that
recipient's history entry. `pick` injects `random.choice`. Returns the
chosen track (or `None`) and the recipient's updated history entry. -/
def choose_track_for_user (tracks : List Track) (pick : Nat)
    (today_date : String) (st : Option UserEntry) :
    Option Track × Option UserEntry :=
  if tracks.isEmpty then (none, st)
  else
    match sameDayTrack tracks today_date st with
    | some t => (some t, st)
    | none =>
      let used := usedOf st
      let available := tracks.filter (fun t => decide (t.id ∉ used))
      let used2 := if available.isEmpty then [] else used
      let available2 := if available.isEmpty then tracks else available
      let chosen := available2.getD (pick % available2.length) default
      let used3 := if chosen.id ∈ used2 then used2 else used2 ++ [chosen.id]
      (some chosen, some ⟨today_date, chosen.id, used3⟩)

/-- Iterate `choose_track_for_user` over a list of `(pick, date)` calls,
threading the recipient's history entry. -/
def rotationRun (tracks : List Track) :
    List (Nat × String) → Option UserEntry →
    List (Option Track) × Option UserEntry
  | [], st => ([], st)
  | (p, d) :: rest, st =>
    let r := choose_track_for_user tracks p d st
    let rr := rotationRun tracks rest r.2
    (r.1 :: rr.1, rr.2)

/-- One record of `votes.json`: `{"likes": int, "voters": [...]}`. -/
structure VoteEntry where
  likes : Int
  voters : List Int
deriving DecidableEq, Repr

/-- The vote ledger, keyed by track id. -/
abbrev Votes := List (String × VoteEntry)

/-- Outcome reported by `vote_callback` to the voter. -/
inductive VoteResult
  | accepted
  | alreadyVoted
deriving DecidableEq, Repr

/-- The state change of `vote_callback` for `(track_id, user_id)`: if the
user already voted, answer and return with no mutation; otherwise add the
voter, increment `likes`, and store the entry. -/
def record_vote (votes : Votes) (track_id : String) (user_id : Int) :
    VoteResult × Votes :=
  let entry := (assocGet votes track_id).getD ⟨0, []⟩
  if user_id ∈ entry.voters then (.alreadyVoted, votes)
  else
    (.accepted,
      assocSet votes track_id ⟨entry.likes + 1, entry.voters ++ [user_id]⟩)

/-- `track_by_id = {t["id"]: t for t in tracks}` followed by `.get(tid)`:
a later duplicate id overwrites an earlier one, so lookup finds the last
occurrence. -/
def trackById (tracks : List Track) (tid : String) : Option Track :=
  tracks.reverse.find? (fun t => t.id == tid)

/-- The `scored` list of `build_top5_text`: iterate the vote ledger in
order, keep entries with `likes > 0` whose track id is in the catalog. -/
def scoredJoin (tracks : List Track) (votes : Votes) : List (Int × Track) :=
  votes.filterMap (fun p =>
    if p.2.likes ≤ 0 then none
    else (trackById tracks p.1).map (fun tr => (p.2.likes, tr)))

/-- `scored.sort(key=lambda x: x[0], reverse=True)`: the stable descending
sort of the scored list. -/
def sortedScored (tracks : List Track) (votes : Votes) : List (Int × Track) :=
  List.insertionSort (fun a b => b.1 ≤ a.1) (scoredJoin tracks votes)

/-- The ranked entries rendered by `build_top5_text`: `scored[:5]` after the
stable descending sort. -/
def build_top5_scored (tracks : List Track) (votes : Votes) :
    List (Int × Track) :=
  (sortedScored tracks votes).take 5

/-- Result of one run of `broadcast_top5_to_all`: final subscribers store,
final broadcast log, the `(sent, skipped)` counters, the chats that received
the message in order, and whether the log was persisted. -/
structure Top5Result where
  store : List Int
  log : BroadcastLog
  sent : Nat
  skipped : Nat
  delivered : List Int
  persisted : Bool
deriving DecidableEq, Repr

/-- The `for chat_id in list(subs)` loop of `broadcast_top5_to_all`.
Returns (store, log, sent, skipped, delivered). -/
def top5Loop (sbT : Int → SendOutcome) (force : Bool) (today_iso : String) :
    List Int → List Int → BroadcastLog →
    List Int × BroadcastLog × Nat × Nat × List Int
  | [], store, log => (store, log, 0, 0, [])
  | c :: rest, store, log =>
    let e := resetEntry log c today_iso
    if !force && decide ("TOP5" ∈ e.sent_slots) then
      let r := top5Loop sbT force today_iso rest store log
      (r.1, r.2.1, r.2.2.1, r.2.2.2.1 + 1, r.2.2.2.2)
    else
      match sbT c with
      | .success =>
        let log2 :=
          if force then log
          else assocSet log c ⟨e.last_date, e.sent_slots ++ ["TOP5"]⟩
        let r := top5Loop sbT force today_iso rest store log2
        (r.1, r.2.1, r.2.2.1 + 1, r.2.2.2.1, c :: r.2.2.2.2)
      | .forbidden =>
        let r := top5Loop sbT force today_iso rest (store.erase c) log
        (r.1, r.2.1, r.2.2.1, r.2.2.2.1, r.2.2.2.2)
      | _ =>
        let r := top5Loop sbT force today_iso rest store log
        (r.1, r.2.1, r.2.2.1, r.2.2.2.1, r.2.2.2.2)

/-- `broadcast_top5_to_all(force)` over the state `(store, log)`. The log is
saved (persisted) only when `force` is false. -/
def broadcast_top5_to_all (sbT : Int → SendOutcome) (force : Bool)
    (today_iso : String) (store : List Int) (log : BroadcastLog) :
    Top5Result :=
  if store.isEmpty then ⟨store, log, 0, 0, [], false⟩
  else
    let r := top5Loop sbT force today_iso store store log
    ⟨r.1, r.2.1, r.2.2.1, r.2.2.2.1, r.2.2.2.2, !force⟩

/-! ### Concrete data used by counterexamples and witnesses -/

/-- A catalog row with the given id, date, slot and title, no media. -/
def mkTrack (i d s ta : String) : Track := ⟨i, d, s, ta, "", "", ""⟩

/-- The two-track catalog of the spec's broadcast scenario. -/
def demoCatalog : List Track :=
  [mkTrack "1" "2025-12-16" "1" "A", mkTrack "2" "2025-12-16" "1" "B"]

/-- A catalog whose two matching tracks appear in the file in descending id
order. -/
def catalogC9 : List Track :=
  [mkTrack "2" "2025-12-16" "1" "B", mkTrack "1" "2025-12-16" "1" "A"]

/-- A catalog with a matching track whose id is non-numeric and non-empty. -/
def badCatalog : List Track := [mkTrack "abc" "2025-12-16" "1" "X"]

/-- A transport in which every send succeeds. -/
def sendAlwaysOk : Int → Track → SendOutcome := fun _ _ => .success

/-- A transport in which every send raises a transient (non-Forbidden,
non-BadRequest) error. -/
def sendAlwaysErr : Int → Track → SendOutcome := fun _ _ => .otherError

/-! ### Association-list store lemmas -/

theorem assocGet_assocSet_self {κ ε : Type} [DecidableEq κ]
    (l : List (κ × ε)) (c : κ) (e : ε) :
    assocGet (assocSet l c e) c = some e := by
  induction l with
  | nil => simp [assocGet, assocSet]
  | cons p rest ih =>
    by_cases h : p.1 = c
    · simp [assocGet, assocSet, h]
    · simp [assocGet, assocSet, h, ih]

theorem assocGet_assocSet_ne {κ ε : Type} [DecidableEq κ]
    (l : List (κ × ε)) (c c' : κ) (e : ε) (h : c' ≠ c) :
    assocGet (assocSet l c e) c' = assocGet l c' := by
  have h' : ¬ c = c' := Ne.symm h
  induction l with
  | nil => simp [assocGet, assocSet, h']
  | cons p rest ih =>
    by_cases hp : p.1 = c
    · have hp' : ¬ p.1 = c' := fun hc => h (hc ▸ hp ▸ rfl)
      simp [assocGet, assocSet, hp, h', hp']
    · by_cases hq : p.1 = c'
      · simp [assocGet, assocSet, hp, hq, h]
      · simp [assocGet, assocSet, hp, hq, ih]

theorem resetEntry_last_date (log : BroadcastLog) (c : Int) (iso : String) :
    (resetEntry log c iso).last_date = iso := by
  unfold resetEntry
  split
  · rfl
  · next h => exact not_not.mp h

theorem resetEntry_assocSet_ne (log : BroadcastLog) (c c' : Int)
    (e : LogEntry) (iso : String) (h : c' ≠ c) :
    resetEntry (assocSet log c e) c' iso = resetEntry log c' iso := by
  unfold resetEntry
  rw [assocGet_assocSet_ne log c c' e h]

theorem markedB_assocSet_ne (log : BroadcastLog) (c c' : Int) (e : LogEntry)
    (iso slot : String) (h : c' ≠ c) :
    markedB (assocSet log c e) c' iso slot = markedB log c' iso slot := by
  unfold markedB
  rw [resetEntry_assocSet_ne log c c' e iso h]

theorem markedB_after_mark (log : BroadcastLog) (c : Int) (iso slot : String)
    (e : LogEntry) (hld : e.last_date = iso) (hmem : slot ∈ e.sent_slots) :
    markedB (assocSet log c e) c iso slot = true := by
  have hP : slot ∈ (resetEntry (assocSet log c e) c iso).sent_slots := by
    unfold resetEntry
    rw [assocGet_assocSet_self]
    simp only [Option.getD_some, hld]
    simp [hmem]
  unfold markedB
  exact decide_eq_true hP

theorem markedB_eq_mem (log : BroadcastLog) (c : Int) (iso slot : String) :
    markedB log c iso slot = true ↔ slot ∈ (resetEntry log c iso).sent_slots := by
  simp [markedB]

/-! ### Lemmas about the slot-broadcast loop -/

theorem sendTrack_subset (sb : Int → Track → SendOutcome) (c : Int) (t : Track)
    (subs : List Int) : send_track_to_chat sb c t subs ⊆ subs := by
  unfold send_track_to_chat
  cases sb c t with
  | forbidden =>
    dsimp only
    by_cases hmem : c ∈ subs
    · rw [if_pos hmem]
      exact List.erase_subset c subs
    · rw [if_neg hmem]
      exact fun x hx => hx
  | success => exact fun x hx => hx
  | badRequest => exact fun x hx => hx
  | otherError => exact fun x hx => hx

theorem foldl_send_subset (sb : Int → Track → SendOutcome) (c : Int)
    (ts : List Track) (subs : List Int) :
    ts.foldl (fun st t => send_track_to_chat sb c t st) subs ⊆ subs := by
  induction ts generalizing subs with
  | nil => exact fun x hx => hx
  | cons t rest ih =>
    exact List.Subset.trans (ih (send_track_to_chat sb c t subs))
      (sendTrack_subset sb c t subs)

theorem slotLoop_mark_preserved (sb : Int → Track → SendOutcome)
    (ts : List Track) (slot iso : String) (pending : List Int) :
    ∀ (store : List Int) (log : BroadcastLog) (c : Int),
      markedB log c iso slot = true →
      markedB (broadcastSlotLoop sb ts slot iso pending store log).log c iso
        slot = true := by
  induction pending with
  | nil => intro store log c h; simpa [broadcastSlotLoop] using h
  | cons c' rest ih =>
    intro store log c h
    by_cases hm : slot ∈ (resetEntry log c' iso).sent_slots
    · simp only [broadcastSlotLoop, if_pos hm]
      exact ih store log c h
    · simp only [broadcastSlotLoop, if_neg hm]
      apply ih
      by_cases hcc : c = c'
      · subst hcc
        exact absurd ((markedB_eq_mem log c iso slot).mp h) hm
      · rw [markedB_assocSet_ne log c' c _ iso slot hcc]
        exact h

theorem slotLoop_mark_all (sb : Int → Track → SendOutcome) (ts : List Track)
    (slot iso : String) (pending : List Int) :
    ∀ (store : List Int) (log : BroadcastLog) (c : Int),
      c ∈ pending →
      markedB (broadcastSlotLoop sb ts slot iso pending store log).log c iso
        slot = true := by
  induction pending with
  | nil => intro _ _ c h; exact absurd h (List.not_mem_nil c)
  | cons c' rest ih =>
    intro store log c h
    by_cases hm : slot ∈ (resetEntry log c' iso).sent_slots
    · simp only [broadcastSlotLoop, if_pos hm]
      rcases List.mem_cons.mp h with hc | hc
      · subst hc
        exact slotLoop_mark_preserved sb ts slot iso rest store log c
          ((markedB_eq_mem log c iso slot).mpr hm)
      · exact ih store log c hc
    · simp only [broadcastSlotLoop, if_neg hm]
      rcases List.mem_cons.mp h with hc | hc
      · subst hc
        apply slotLoop_mark_preserved
        exact markedB_after_mark log c iso slot _ (resetEntry_last_date log c iso)
          (List.mem_append_right _ (List.mem_singleton_self slot))
      · exact ih _ _ c hc

theorem slotLoop_all_marked_noop (sb : Int → Track → SendOutcome)
    (ts : List Track) (slot iso : String) (pending : List Int) :
    ∀ (store : List Int) (log : BroadcastLog),
      (∀ c ∈ pending, markedB log c iso slot = true) →
      broadcastSlotLoop sb ts slot iso pending store log =
        ⟨store, log, 0, pending.length, []⟩ := by
  induction pending with
  | nil => intro store log _; rfl
  | cons c' rest ih =>
    intro store log h
    have hm : slot ∈ (resetEntry log c' iso).sent_slots :=
      (markedB_eq_mem log c' iso slot).mp (h c' (List.mem_cons_self c' rest))
    simp only [broadcastSlotLoop, if_pos hm]
    rw [ih store log (fun c hc => h c (List.mem_cons_of_mem c' hc))]
    rfl

theorem slotLoop_store_subset (sb : Int → Track → SendOutcome)
    (ts : List Track) (slot iso : String) (pending : List Int) :
    ∀ (store : List Int) (log : BroadcastLog),
      (broadcastSlotLoop sb ts slot iso pending store log).store ⊆ store := by
  induction pending with
  | nil => intro store log; exact fun x hx => hx
  | cons c' rest ih =>
    intro store log
    by_cases hm : slot ∈ (resetEntry log c' iso).sent_slots
    · simp only [broadcastSlotLoop, if_pos hm]
      exact ih store log
    · simp only [broadcastSlotLoop, if_neg hm]
      exact List.Subset.trans (ih _ _) (foldl_send_subset sb c' ts store)

theorem slotLoop_counts (sb : Int → Track → SendOutcome) (ts : List Track)
    (slot iso : String) (pending : List Int) :
    ∀ (store : List Int) (log : BroadcastLog),
      (broadcastSlotLoop sb ts slot iso pending store log).sent +
        (broadcastSlotLoop sb ts slot iso pending store log).skipped =
        pending.length := by
  induction pending with
  | nil => intro store log; rfl
  | cons c' rest ih =>
    intro store log
    by_cases hm : slot ∈ (resetEntry log c' iso).sent_slots
    · simp only [broadcastSlotLoop, if_pos hm, List.length_cons]
      have := ih store log
      omega
    · simp only [broadcastSlotLoop, if_neg hm, List.length_cons]
      have := ih (ts.foldl (fun st t => send_track_to_chat sb c' t st) store)
        (assocSet log c' ⟨(resetEntry log c' iso).last_date,
          (resetEntry log c' iso).sent_slots ++ [slot]⟩)
      omega

theorem slotLoop_attempt_chats (sb : Int → Track → SendOutcome)
    (ts : List Track) (slot iso : String) (pending : List Int) :
    ∀ (store : List Int) (log : BroadcastLog) (p : Int × Track),
      p ∈ (broadcastSlotLoop sb ts slot iso pending store log).attempts →
      p.1 ∈ pending := by
  induction pending with
  | nil => intro store log p h; exact absurd h (List.not_mem_nil p)
  | cons c' rest ih =>
    intro store log p h
    by_cases hm : slot ∈ (resetEntry log c' iso).sent_slots
    · simp only [broadcastSlotLoop, if_pos hm] at h
      exact List.mem_cons_of_mem c' (ih store log p h)
    · simp only [broadcastSlotLoop, if_neg hm] at h
      rcases List.mem_append.mp h with hmap | hrec
      · rcases List.mem_map.mp hmap with ⟨t, _, ht⟩
        rw [← ht]
        exact List.mem_cons_self c' rest
      · exact List.mem_cons_of_mem c' (ih _ _ p hrec)

theorem slotLoop_attempts_filter (sb : Int → Track → SendOutcome)
    (ts : List Track) (slot iso : String) (pending : List Int) :
    ∀ (store : List Int) (log : BroadcastLog) (c : Int),
      pending.Nodup → c ∈ pending → markedB log c iso slot = false →
      (broadcastSlotLoop sb ts slot iso pending store log).attempts.filter
          (fun p => decide (p.1 = c)) =
        ts.map (fun t => (c, t)) := by
  induction pending with
  | nil => intro _ _ c _ h _; exact absurd h (List.not_mem_nil c)
  | cons c' rest ih =>
    intro store log c hnd hc hnm
    have hnd' : c' ∉ rest ∧ rest.Nodup := List.nodup_cons.mp hnd
    rcases List.mem_cons.mp hc with hcc | hcc
    · subst hcc
      have hm : ¬ slot ∈ (resetEntry log c iso).sent_slots := by
        intro hmem
        rw [(markedB_eq_mem log c iso slot).mpr hmem] at hnm
        exact absurd hnm (by decide)
      simp only [broadcastSlotLoop, if_neg hm, List.filter_append]
      have h1 : (ts.map (fun t => (c, t))).filter (fun p => decide (p.1 = c)) =
          ts.map (fun t => (c, t)) := by
        apply List.filter_eq_self.mpr
        intro p hp
        rcases List.mem_map.mp hp with ⟨t, _, ht⟩
        rw [← ht]
        exact decide_eq_true rfl
      have h2 : (broadcastSlotLoop sb ts slot iso rest
            (ts.foldl (fun st t => send_track_to_chat sb c t st) store)
            (assocSet log c ⟨(resetEntry log c iso).last_date,
              (resetEntry log c iso).sent_slots ++ [slot]⟩)).attempts.filter
          (fun p => decide (p.1 = c)) = [] := by
        apply List.filter_eq_nil_iff.mpr
        intro p hp
        have : p.1 ∈ rest := slotLoop_attempt_chats sb ts slot iso rest _ _ p hp
        have hne : ¬ p.1 = c := fun he => hnd'.1 (he ▸ this)
        simpa using hne
      rw [h1, h2, List.append_nil]
    · have hne : ¬ c = c' := fun he => hnd'.1 (he ▸ hcc)
      by_cases hm : slot ∈ (resetEntry log c' iso).sent_slots
      · simp only [broadcastSlotLoop, if_pos hm]
        exact ih store log c hnd'.2 hcc hnm
      · simp only [broadcastSlotLoop, if_neg hm, List.filter_append]
        have h1 : (ts.map (fun t => (c', t))).filter (fun p => decide (p.1 = c)) =
            [] := by
          apply List.filter_eq_nil_iff.mpr
          intro p hp
          rcases List.mem_map.mp hp with ⟨t, _, ht⟩
          rw [← ht]
          simpa using fun he => hne he.symm
        have hnm2 : markedB (assocSet log c' ⟨(resetEntry log c' iso).last_date,
            (resetEntry log c' iso).sent_slots ++ [slot]⟩) c iso slot = false := by
          rw [markedB_assocSet_ne log c' c _ iso slot hne]
          exact hnm
        rw [h1, List.nil_append]
        exact ih _ _ c hnd'.2 hcc hnm2

/-- Under an in-window date, successfully resolved non-empty tracks and a
non-empty subscriber store, `broadcast_slot_job` runs its subscriber loop. -/
theorem slot_job_eq_loop (sb : Int → Track → SendOutcome) (tracks : List Track)
    (slot : String) (today : PyDate) (store : List Int) (log : BroadcastLog)
    (ts : List Track)
    (hwin : (PyDate.ltb today BROADCAST_START ||
      PyDate.ltb BROADCAST_END today) = false)
    (hts : get_tracks_for_date_slot tracks today.iso slot = some ts)
    (hne : ts ≠ []) (hst : store ≠ []) :
    broadcast_slot_job sb tracks slot today store log =
      some (broadcastSlotLoop sb ts slot today.iso store store log) := by
  unfold broadcast_slot_job
  rw [hwin, hts]
  simp [List.isEmpty_iff, hne, hst]

/-- Under an in-window date and resolved non-empty tracks but an empty-or-any
subscriber store, `broadcast_slot_job` returns an early no-op result when the
given condition holds. -/
theorem slot_job_empty_store (sb : Int → Track → SendOutcome)
    (tracks : List Track) (slot : String) (today : PyDate)
    (log : BroadcastLog) (ts : List Track)
    (hwin : (PyDate.ltb today BROADCAST_START ||
      PyDate.ltb BROADCAST_END today) = false)
    (hts : get_tracks_for_date_slot tracks today.iso slot = some ts)
    (hne : ts ≠ []) :
    broadcast_slot_job sb tracks slot today [] log =
      some ⟨[], log, 0, 0, []⟩ := by
  unfold broadcast_slot_job
  rw [hwin, hts]
  simp [List.isEmpty_iff, hne]

/-- C1 (counterexample): with the date outside the campaign window and one
subscriber, invoking the trigger twice delivers nothing, but the second
invocation's skip count is 0, not the subscriber count 1 — the claim's
universally quantified statement fails. -/
theorem c1_skip_count_counterexample :
    ((broadcast_slot_job sendAlwaysOk demoCatalog "1" ⟨2025, 12, 27⟩ [100]
        []).bind
      (fun r1 =>
        (broadcast_slot_job sendAlwaysOk demoCatalog "1" ⟨2025, 12, 27⟩
            r1.store r1.log).map
          (fun r2 => (r2.skipped, r1.store.length)))) = some (0, 1) ∧
    (0 : Nat) ≠ 1 := by
  constructor
  · decide
  · decide

/-- C1 (amended): provided the date lies inside the campaign window and at
least one catalog track matches (date, slot), invoking the slot-broadcast
trigger twice with no state changes between the calls delivers only during
the first invocation: the second invocation makes no send attempts, sends to
0 chats, its skip count equals the number of subscribers, and it leaves the
subscriber store and broadcast log unchanged. -/
theorem c1_second_invocation_skips_all (sb : Int → Track → SendOutcome)
    (tracks : List Track) (slot : String) (today : PyDate) (store : List Int)
    (log : BroadcastLog) (ts : List Track)
    (hwin : (PyDate.ltb today BROADCAST_START ||
      PyDate.ltb BROADCAST_END today) = false)
    (hts : get_tracks_for_date_slot tracks today.iso slot = some ts)
    (hne : ts ≠ []) :
    ∃ r1 r2,
      broadcast_slot_job sb tracks slot today store log = some r1 ∧
      broadcast_slot_job sb tracks slot today r1.store r1.log = some r2 ∧
      r2.attempts = [] ∧ r2.sent = 0 ∧ r2.skipped = r1.store.length ∧
      r2.store = r1.store ∧ r2.log = r1.log := by
  by_cases hst : store = []
  · subst hst
    exact ⟨⟨[], log, 0, 0, []⟩, ⟨[], log, 0, 0, []⟩,
      slot_job_empty_store sb tracks slot today log ts hwin hts hne,
      slot_job_empty_store sb tracks slot today log ts hwin hts hne,
      rfl, rfl, rfl, rfl, rfl⟩
  · have h1 := slot_job_eq_loop sb tracks slot today store log ts hwin hts hne
      hst
    have hmarked : ∀ c ∈ (broadcastSlotLoop sb ts slot today.iso store store
        log).store,
        markedB (broadcastSlotLoop sb ts slot today.iso store store log).log c
          today.iso slot = true := by
      intro c hc
      exact slotLoop_mark_all sb ts slot today.iso store store log c
        (slotLoop_store_subset sb ts slot today.iso store store log hc)
    by_cases hst2 : (broadcastSlotLoop sb ts slot today.iso store store
        log).store = []
    · refine ⟨broadcastSlotLoop sb ts slot today.iso store store log,
        ⟨(broadcastSlotLoop sb ts slot today.iso store store log).store,
          (broadcastSlotLoop sb ts slot today.iso store store log).log,
          0, 0, []⟩, h1, ?_, rfl, rfl, ?_, rfl, rfl⟩
      · rw [hst2]
        exact slot_job_empty_store sb tracks slot today _ ts hwin hts hne
      · rw [hst2]
        rfl
    · have h2 := slot_job_eq_loop sb tracks slot today
        (broadcastSlotLoop sb ts slot today.iso store store log).store
        (broadcastSlotLoop sb ts slot today.iso store store log).log ts hwin
        hts hne hst2
      have hloop2 := slotLoop_all_marked_noop sb ts slot today.iso
        (broadcastSlotLoop sb ts slot today.iso store store log).store
        (broadcastSlotLoop sb ts slot today.iso store store log).store
        (broadcastSlotLoop sb ts slot today.iso store store log).log hmarked
      refine ⟨broadcastSlotLoop sb ts slot today.iso store store log,
        ⟨(broadcastSlotLoop sb ts slot today.iso store store log).store,
          (broadcastSlotLoop sb ts slot today.iso store store log).log, 0,
          (broadcastSlotLoop sb ts slot today.iso store store log).store.length,
          []⟩,
        h1, by rw [h2, hloop2], rfl, rfl, rfl, rfl, rfl⟩

/-- C1 witness: the spec's own scenario (two matching tracks for slot 1 on
2025-12-16, subscribers 100 and 200, empty log) satisfies the amended
theorem's hypotheses. -/
theorem c1_second_invocation_skips_all_witness :
    (PyDate.ltb ⟨2025, 12, 16⟩ BROADCAST_START ||
      PyDate.ltb BROADCAST_END ⟨2025, 12, 16⟩) = false ∧
    get_tracks_for_date_slot demoCatalog (PyDate.iso ⟨2025, 12, 16⟩) "1" =
      some demoCatalog ∧
    ∃ r1 r2,
      broadcast_slot_job sendAlwaysOk demoCatalog "1" ⟨2025, 12, 16⟩
        [100, 200] [] = some r1 ∧
      broadcast_slot_job sendAlwaysOk demoCatalog "1" ⟨2025, 12, 16⟩ r1.store
        r1.log = some r2 ∧
      r2.attempts = [] ∧ r2.sent = 0 ∧ r2.skipped = r1.store.length ∧
      r2.store = r1.store ∧ r2.log = r1.log :=
  ⟨by decide, by decide,
    c1_second_invocation_skips_all sendAlwaysOk demoCatalog "1" ⟨2025, 12, 16⟩
      [100, 200] [] demoCatalog (by decide) (by decide) (by decide)⟩

/-- C2 (counterexample): every send raises a transient error, yet after the
trigger the recipient 100 is marked SENT — slot "1" was appended to their
broadcast-log entry — contradicting the claim that a recipient hit by a
transient error is not marked. -/
theorem c2_transient_error_still_marks_counterexample :
    sendAlwaysErr 100 (mkTrack "1" "2025-12-16" "1" "A") =
      SendOutcome.otherError ∧
    ((broadcast_slot_job sendAlwaysErr demoCatalog "1" ⟨2025, 12, 16⟩ [100]
        []).map
      (fun r => markedB r.log 100 "2025-12-16" "1")) = some true := by
  constructor
  · rfl
  · decide

/-- C2 (amended): errors during delivery are caught inside the send helper,
so the loop always proceeds through every recipient (sent + skipped equals
the subscriber count) and every recipient — including one whose sends all
raised transient errors — ends the trigger marked SENT for the slot. -/
theorem c2_loop_continues_and_marks (sb : Int → Track → SendOutcome)
    (tracks : List Track) (slot : String) (today : PyDate) (store : List Int)
    (log : BroadcastLog) (ts : List Track)
    (hwin : (PyDate.ltb today BROADCAST_START ||
      PyDate.ltb BROADCAST_END today) = false)
    (hts : get_tracks_for_date_slot tracks today.iso slot = some ts)
    (hne : ts ≠ []) :
    ∃ r, broadcast_slot_job sb tracks slot today store log = some r ∧
      r.sent + r.skipped = store.length ∧
      ∀ c ∈ store, markedB r.log c today.iso slot = true := by
  by_cases hst : store = []
  · subst hst
    exact ⟨⟨[], log, 0, 0, []⟩,
      slot_job_empty_store sb tracks slot today log ts hwin hts hne, rfl,
      fun c hc => absurd hc (List.not_mem_nil c)⟩
  · exact ⟨broadcastSlotLoop sb ts slot today.iso store store log,
      slot_job_eq_loop sb tracks slot today store log ts hwin hts hne hst,
      slotLoop_counts sb ts slot today.iso store store log,
      fun c hc => slotLoop_mark_all sb ts slot today.iso store store log c hc⟩

/-- C2 witness: the all-sends-fail transport over one subscriber satisfies
the amended theorem's hypotheses. -/
theorem c2_loop_continues_and_marks_witness :
    (PyDate.ltb ⟨2025, 12, 16⟩ BROADCAST_START ||
      PyDate.ltb BROADCAST_END ⟨2025, 12, 16⟩) = false ∧
    ∃ r, broadcast_slot_job sendAlwaysErr demoCatalog "1" ⟨2025, 12, 16⟩ [100]
        [] = some r ∧
      r.sent + r.skipped = [100].length ∧
      ∀ c ∈ ([100] : List Int),
        markedB r.log c (PyDate.iso ⟨2025, 12, 16⟩) "1" = true :=
  ⟨by decide,
    c2_loop_continues_and_marks sendAlwaysErr demoCatalog "1" ⟨2025, 12, 16⟩
      [100] [] demoCatalog (by decide) (by decide) (by decide)⟩

/-- C9 (counterexample): with the two matching tracks stored in the catalog
in descending id order, the single subscriber receives them sorted by
integer id — not in the order in which they appear in the loaded catalog. -/
theorem c9_catalog_order_counterexample :
    ((broadcast_slot_job sendAlwaysOk catalogC9 "1" ⟨2025, 12, 16⟩ [100]
        []).map (fun r => r.attempts)) =
      some [(100, mkTrack "1" "2025-12-16" "1" "A"),
        (100, mkTrack "2" "2025-12-16" "1" "B")] ∧
    some [(100, mkTrack "1" "2025-12-16" "1" "A"),
        (100, mkTrack "2" "2025-12-16" "1" "B")] ≠
      some (catalogC9.map (fun t => ((100 : Int), t))) := by
  constructor
  · decide
  · decide

/-- C9 (amended): each subscriber who is not skipped receives exactly the
tracks resolved for (date, slot) in the resolved order — ascending by id
parsed as an integer (ties by catalog order) — rather than raw catalog
order. -/
theorem c9_each_subscriber_gets_resolved_list (sb : Int → Track → SendOutcome)
    (tracks : List Track) (slot : String) (today : PyDate) (store : List Int)
    (log : BroadcastLog) (ts : List Track) (c : Int)
    (hwin : (PyDate.ltb today BROADCAST_START ||
      PyDate.ltb BROADCAST_END today) = false)
    (hts : get_tracks_for_date_slot tracks today.iso slot = some ts)
    (hnd : store.Nodup) (hc : c ∈ store)
    (hnm : markedB log c today.iso slot = false) :
    ∃ r, broadcast_slot_job sb tracks slot today store log = some r ∧
      (r.attempts.filter (fun p => decide (p.1 = c))).map Prod.snd = ts := by
  have hst : store ≠ [] := by
    intro h
    rw [h] at hc
    exact List.not_mem_nil c hc
  by_cases hne : ts = []
  · subst hne
    refine ⟨⟨store, log, 0, 0, []⟩, ?_, rfl⟩
    unfold broadcast_slot_job
    rw [hwin, hts]
    simp
  · refine ⟨broadcastSlotLoop sb ts slot today.iso store store log,
      slot_job_eq_loop sb tracks slot today store log ts hwin hts hne hst, ?_⟩
    rw [slotLoop_attempts_filter sb ts slot today.iso store store log c hnd hc
      hnm, List.map_map]
    simp

/-- C9 witness: subscriber 100 with an empty log receives both resolved
tracks of the demo catalog. -/
theorem c9_each_subscriber_gets_resolved_list_witness :
    get_tracks_for_date_slot demoCatalog (PyDate.iso ⟨2025, 12, 16⟩) "1" =
      some demoCatalog ∧
    markedB [] 100 (PyDate.iso ⟨2025, 12, 16⟩) "1" = false ∧
    ∃ r, broadcast_slot_job sendAlwaysOk demoCatalog "1" ⟨2025, 12, 16⟩ [100]
        [] = some r ∧
      (r.attempts.filter (fun p => decide (p.1 = 100))).map Prod.snd =
        demoCatalog :=
  ⟨by decide, by decide,
    c9_each_subscriber_gets_resolved_list sendAlwaysOk demoCatalog "1"
      ⟨2025, 12, 16⟩ [100] [] demoCatalog 100 (by decide) (by decide)
      (by decide) (by decide) (by decide)⟩

/-- C10: resolving the tracks for a (date, slot) pair sorts by the id parsed
as a Python int, so it is total whenever every matching track's id parses
(an empty id counts as 0), and it raises — returns `none` — on a catalog
containing a matching track whose id is a non-numeric, non-empty string. -/
theorem c10_slot_resolution_totality :
    (∀ (tracks : List Track) (d s : String),
      (∀ t ∈ tracks, matchesDateSlot d s t = true →
        (trackKey t).isSome = true) →
      (get_tracks_for_date_slot tracks d s).isSome = true) ∧
    get_tracks_for_date_slot badCatalog "2025-12-16" "1" = none := by
  constructor
  · intro tracks d s h
    have hall : (tracks.filter (matchesDateSlot d s)).all
        (fun t => (trackKey t).isSome) = true := by
      rw [List.all_eq_true]
      intro t ht
      exact h t (List.mem_filter.mp ht).1 (List.mem_filter.mp ht).2
    simp only [get_tracks_for_date_slot]
    rw [hall]
    rfl
  · decide

/-- C10 witness: the demo catalog has all-numeric matching ids, so
resolution succeeds on it. -/
theorem c10_slot_resolution_totality_witness :
    (get_tracks_for_date_slot demoCatalog "2025-12-16" "1").isSome = true :=
  c10_slot_resolution_totality.1 demoCatalog "2025-12-16" "1" (by decide)

end AdventBot

namespace AdventBot

theorem getD_mod_mem (l : List Track) (i : Nat) (h : l ≠ []) :
    l.getD (i % l.length) default ∈ l := by
  have hlen : i % l.length < l.length := Nat.mod_lt _ (List.length_pos.mpr h)
  rw [List.getD_eq_getElem l default hlen]
  exact List.getElem_mem hlen

theorem choose_sameDay_hit (tracks : List Track) (p : Nat) (d : String)
    (st : Option UserEntry) (t : Track) (hne : tracks ≠ [])
    (hsd : sameDayTrack tracks d st = some t) :
    choose_track_for_user tracks p d st = (some t, st) := by
  have hie : tracks.isEmpty = false := by simp [List.isEmpty_iff, hne]
  unfold choose_track_for_user
  rw [hie, hsd]
  rfl

theorem choose_fresh_avail_pos (tracks : List Track) (p : Nat) (d : String)
    (st : Option UserEntry) (hne : tracks ≠ [])
    (hsd : sameDayTrack tracks d st = none)
    (hav : (tracks.filter (fun t => decide (t.id ∉ usedOf st))).isEmpty
      = false) :
    choose_track_for_user tracks p d st =
      (some ((tracks.filter (fun t => decide (t.id ∉ usedOf st))).getD
          (p % (tracks.filter (fun t => decide (t.id ∉ usedOf st))).length)
          default),
        some ⟨d,
          ((tracks.filter (fun t => decide (t.id ∉ usedOf st))).getD
            (p % (tracks.filter
              (fun t => decide (t.id ∉ usedOf st))).length) default).id,
          usedOf st ++
            [((tracks.filter (fun t => decide (t.id ∉ usedOf st))).getD
              (p % (tracks.filter
                (fun t => decide (t.id ∉ usedOf st))).length) default).id]⟩) := by
  have hie : tracks.isEmpty = false := by simp [List.isEmpty_iff, hne]
  have havne : tracks.filter (fun t => decide (t.id ∉ usedOf st)) ≠ [] := by
    intro hh
    rw [hh] at hav
    exact absurd hav (by decide)
  have hchu : ((tracks.filter (fun t => decide (t.id ∉ usedOf st))).getD
      (p % (tracks.filter (fun t => decide (t.id ∉ usedOf st))).length)
      default).id ∉ usedOf st := by
    have := getD_mod_mem _ p havne
    exact of_decide_eq_true (List.mem_filter.mp this).2
  unfold choose_track_for_user
  rw [hie, hsd]
  simp only [hav, Bool.false_eq_true, if_false, if_neg hchu]

theorem choose_fresh_avail_empty (tracks : List Track) (p : Nat) (d : String)
    (st : Option UserEntry) (hne : tracks ≠ [])
    (hsd : sameDayTrack tracks d st = none)
    (hav : (tracks.filter (fun t => decide (t.id ∉ usedOf st))).isEmpty
      = true) :
    choose_track_for_user tracks p d st =
      (some (tracks.getD (p % tracks.length) default),
        some ⟨d, (tracks.getD (p % tracks.length) default).id,
          [(tracks.getD (p % tracks.length) default).id]⟩) := by
  have hie : tracks.isEmpty = false := by simp [List.isEmpty_iff, hne]
  unfold choose_track_for_user
  rw [hie, hsd]
  simp only [hav, if_true, Bool.false_eq_true, if_false,
    List.not_mem_nil, List.nil_append]

theorem choose_fresh_shape (tracks : List Track) (p : Nat) (d : String)
    (st : Option UserEntry) (hne : tracks ≠ [])
    (hsd : sameDayTrack tracks d st = none) :
    ∃ chosen used3, chosen ∈ tracks ∧
      choose_track_for_user tracks p d st =
        (some chosen, some ⟨d, chosen.id, used3⟩) := by
  by_cases hav : (tracks.filter (fun t => decide (t.id ∉ usedOf st))).isEmpty
  · exact ⟨tracks.getD (p % tracks.length) default,
      [(tracks.getD (p % tracks.length) default).id],
      getD_mod_mem tracks p hne,
      choose_fresh_avail_empty tracks p d st hne hsd hav⟩
  · have hav' : (tracks.filter (fun t => decide (t.id ∉ usedOf st))).isEmpty
        = false := by
      revert hav
      cases (tracks.filter (fun t => decide (t.id ∉ usedOf st))).isEmpty
      · intro _; rfl
      · intro hh; exact absurd rfl hh
    have havne : tracks.filter (fun t => decide (t.id ∉ usedOf st)) ≠ [] := by
      intro hh
      rw [hh] at hav'
      exact absurd hav' (by decide)
    refine ⟨(tracks.filter (fun t => decide (t.id ∉ usedOf st))).getD
        (p % (tracks.filter (fun t => decide (t.id ∉ usedOf st))).length)
        default, _, ?_, choose_fresh_avail_pos tracks p d st hne hsd hav'⟩
    exact (List.mem_filter.mp (getD_mod_mem _ p havne)).1

theorem find_id_of_nodup (tracks : List Track) (c : Track)
    (hids : (tracks.map Track.id).Nodup) (hc : c ∈ tracks) :
    tracks.find? (fun t => t.id == c.id) = some c := by
  induction tracks with
  | nil => exact absurd hc (List.not_mem_nil c)
  | cons a l ih =>
    have hnd : a.id ∉ l.map Track.id ∧ (l.map Track.id).Nodup :=
      List.nodup_cons.mp (by simpa using hids)
    rcases List.mem_cons.mp hc with h | h
    · subst h
      rw [List.find?_cons_of_pos _ (by simp)]
    · have hb : (a.id == c.id) = false := by
        apply beq_eq_false_iff_ne.mpr
        intro he
        exact hnd.1 (he ▸ List.mem_map_of_mem Track.id h)
      rw [List.find?_cons]
      rw [hb]
      exact ih hnd.2 h

/-- C3: calling the rotation selection twice with the same recipient and
date and no intervening state change returns the identical track both
times (catalog ids are unique, per the data model). -/
theorem c3_same_day_idempotent (tracks : List Track) (p1 p2 : Nat)
    (today : String) (st : Option UserEntry)
    (hids : (tracks.map Track.id).Nodup) :
    (choose_track_for_user tracks p2 today
        (choose_track_for_user tracks p1 today st).2).1 =
      (choose_track_for_user tracks p1 today st).1 := by
  by_cases hne : tracks = []
  · subst hne
    rfl
  · cases hsd : sameDayTrack tracks today st with
    | some t =>
      rw [choose_sameDay_hit tracks p1 today st t hne hsd,
        choose_sameDay_hit tracks p2 today st t hne hsd]
    | none =>
      obtain ⟨chosen, used3, hchm, heq⟩ :=
        choose_fresh_shape tracks p1 today st hne hsd
      rw [heq]
      have hsd2 : sameDayTrack tracks today
          (some ⟨today, chosen.id, used3⟩) = some chosen := by
        simp only [sameDayTrack]
        rw [if_pos trivial]
        exact find_id_of_nodup tracks chosen hids hchm
      show (choose_track_for_user tracks p2 today
        (some ⟨today, chosen.id, used3⟩)).1 = some chosen
      rw [choose_sameDay_hit tracks p2 today _ chosen hne hsd2]

end AdventBot

namespace AdventBot

theorem choose_first_call (tracks : List Track) (p : Nat) (d : String)
    (hne : tracks ≠ []) :
    choose_track_for_user tracks p d none =
      (some (tracks.getD (p % tracks.length) default),
        some ⟨d, (tracks.getD (p % tracks.length) default).id,
          [(tracks.getD (p % tracks.length) default).id]⟩) := by
  have hfilt : tracks.filter (fun t => decide (t.id ∉ usedOf none)) = tracks :=
    List.filter_eq_self.mpr (fun t _ => decide_eq_true (List.not_mem_nil t.id))
  have hav : (tracks.filter
      (fun t => decide (t.id ∉ usedOf none))).isEmpty = false := by
    rw [hfilt]
    simp [List.isEmpty_iff, hne]
  have heq := choose_fresh_avail_pos tracks p d none hne rfl hav
  rw [hfilt] at heq
  simpa [usedOf] using heq

theorem rotation_steps (tracks : List Track)
    (hids : (tracks.map Track.id).Nodup) :
    ∀ (calls : List (Nat × String)) (e : UserEntry),
      e.used_track_ids.Nodup →
      (∀ i ∈ e.used_track_ids, i ∈ tracks.map Track.id) →
      e.used_track_ids.length + calls.length ≤ tracks.length →
      List.Chain' (· ≠ ·) (e.last_date :: calls.map Prod.snd) →
      ∃ (results : List Track) (eFin : UserEntry),
        rotationRun tracks calls (some e) = (results.map some, some eFin) ∧
        results.length = calls.length ∧
        eFin.used_track_ids = e.used_track_ids ++ results.map Track.id ∧
        (∀ t ∈ results, t ∈ tracks) ∧
        (e.used_track_ids ++ results.map Track.id).Nodup ∧
        eFin.last_date = (calls.map Prod.snd).getLastD e.last_date := by
  intro calls
  induction calls with
  | nil =>
    intro e hU hsub hlen hchain
    exact ⟨[], e, rfl, rfl, by simp, by simp, by simpa using hU, rfl⟩
  | cons pd rest ih =>
    obtain ⟨p, d⟩ := pd
    intro e hU hsub hlen hchain
    have hne : tracks ≠ [] := by
      intro hh
      rw [hh] at hlen
      simp at hlen
    rw [List.map_cons] at hchain
    have hchain1 := List.chain'_cons.mp hchain
    have hlt : e.used_track_ids.length < tracks.length := by
      simp only [List.length_cons] at hlen
      omega
    have hex : ∃ t ∈ tracks, t.id ∉ e.used_track_ids := by
      by_contra hcon
      push_neg at hcon
      have hsub2 : tracks.map Track.id ⊆ e.used_track_ids := by
        intro i hi
        rcases List.mem_map.mp hi with ⟨t, ht, hti⟩
        rw [← hti]
        exact hcon t ht
      have hle := (List.subperm_of_subset hids hsub2).length_le
      rw [List.length_map] at hle
      omega
    have hsd : sameDayTrack tracks d (some e) = none := by
      simp only [sameDayTrack]
      rw [if_neg hchain1.1]
    obtain ⟨t0, ht0, ht0u⟩ := hex
    have ht0f : t0 ∈ tracks.filter (fun t => decide (t.id ∉ usedOf (some e))) :=
      List.mem_filter.mpr ⟨ht0, decide_eq_true ht0u⟩
    have hav : (tracks.filter
        (fun t => decide (t.id ∉ usedOf (some e)))).isEmpty = false := by
      cases hc : (tracks.filter
          (fun t => decide (t.id ∉ usedOf (some e)))).isEmpty
      · rfl
      · rw [List.isEmpty_iff] at hc
        rw [hc] at ht0f
        exact absurd ht0f (List.not_mem_nil t0)
    have havne : tracks.filter (fun t => decide (t.id ∉ usedOf (some e)))
        ≠ [] := by
      intro hh
      rw [hh] at hav
      exact absurd hav (by decide)
    have heq := choose_fresh_avail_pos tracks p d (some e) hne hsd hav
    have hchm : (tracks.filter (fun t => decide (t.id ∉ usedOf (some e)))).getD
        (p % (tracks.filter (fun t => decide (t.id ∉ usedOf (some e)))).length)
        default ∈ tracks :=
      (List.mem_filter.mp (getD_mod_mem _ p havne)).1
    have hchu : ((tracks.filter
        (fun t => decide (t.id ∉ usedOf (some e)))).getD
        (p % (tracks.filter (fun t => decide (t.id ∉ usedOf (some e)))).length)
        default).id ∉ e.used_track_ids :=
      of_decide_eq_true (List.mem_filter.mp (getD_mod_mem _ p havne)).2
    set chosen := (tracks.filter
        (fun t => decide (t.id ∉ usedOf (some e)))).getD
        (p % (tracks.filter (fun t => decide (t.id ∉ usedOf (some e)))).length)
        default with hcdef
    have hU2 : (e.used_track_ids ++ [chosen.id]).Nodup :=
      List.Nodup.append hU (List.nodup_singleton chosen.id)
        (List.disjoint_singleton.mpr hchu)
    have hsub2 : ∀ i ∈ e.used_track_ids ++ [chosen.id],
        i ∈ tracks.map Track.id := by
      intro i hi
      rcases List.mem_append.mp hi with h | h
      · exact hsub i h
      · rw [List.mem_singleton.mp h]
        exact List.mem_map_of_mem Track.id hchm
    have hlen2 : (e.used_track_ids ++ [chosen.id]).length + rest.length
        ≤ tracks.length := by
      simp only [List.length_append, List.length_singleton]
      simp only [List.length_cons] at hlen
      omega
    have hchain2 : List.Chain' (· ≠ ·)
        ((⟨d, chosen.id, e.used_track_ids ++ [chosen.id]⟩ :
          UserEntry).last_date :: rest.map Prod.snd) := hchain1.2
    obtain ⟨results, eFin, hrun, hlen3, hused3, hmem3, hnd3, hlast3⟩ :=
      ih ⟨d, chosen.id, e.used_track_ids ++ [chosen.id]⟩ hU2 hsub2 hlen2
        hchain2
    refine ⟨chosen :: results, eFin, ?_, ?_, ?_, ?_, ?_, ?_⟩
    · show rotationRun tracks ((p, d) :: rest) (some e) = _
      simp only [rotationRun, heq, usedOf, hrun, List.map_cons]
    · simp [hlen3]
    · rw [hused3]
      simp
    · intro t ht
      rcases List.mem_cons.mp ht with h | h
      · rw [h]
        exact hchm
      · exact hmem3 t h
    · have h2 : (e.used_track_ids ++ [chosen.id]) ++ List.map Track.id results
          = e.used_track_ids ++ List.map Track.id (chosen :: results) := by
        rw [List.map_cons, List.append_assoc, List.singleton_append]
      rw [← h2]
      exact hnd3
    · rw [List.map_cons, List.getLastD_cons]
      exact hlast3

end AdventBot

namespace AdventBot

/-- C5: starting from a fresh rotation state, one call per day on pairwise
distinct consecutive dates (as with strictly increasing dates) returns every
catalog track exactly once over the first catalog-size calls, after which
the used set is exhausted and the next call resets it, beginning a new
cycle with a used set holding just the newly chosen id. -/
theorem c5_full_rotation_cycle (tracks : List Track)
    (calls : List (Nat × String)) (pExtra : Nat) (dExtra : String)
    (hne : tracks ≠ []) (hids : (tracks.map Track.id).Nodup)
    (hlen : calls.length = tracks.length)
    (hchain : List.Chain' (· ≠ ·) (calls.map Prod.snd ++ [dExtra])) :
    ∃ (results : List Track) (eFin : UserEntry) (t : Track)
        (eNext : UserEntry),
      rotationRun tracks calls none = (results.map some, some eFin) ∧
      (results.map Track.id).Perm (tracks.map Track.id) ∧
      choose_track_for_user tracks pExtra dExtra (some eFin) =
        (some t, some eNext) ∧
      t ∈ tracks ∧ eNext.used_track_ids = [t.id] := by
  cases calls with
  | nil =>
    exact absurd (List.length_eq_zero.mp hlen.symm) hne
  | cons pd rest =>
    obtain ⟨p1, d1⟩ := pd
    have hchain0 : List.Chain' (· ≠ ·)
        ((d1 :: rest.map Prod.snd) ++ [dExtra]) := by
      simpa using hchain
    have hsplit := List.chain'_append.mp hchain0
    have hx : (rest.map Prod.snd).getLastD d1 ∈
        (d1 :: rest.map Prod.snd).getLast? := by
      rw [List.getLast?_cons, List.getLastD_eq_getLast?]
      rfl
    have hy : dExtra ∈ ([dExtra] : List String).head? := rfl
    have hlastne := hsplit.2.2 _ hx _ hy
    have hfirst := choose_first_call tracks p1 d1 hne
    have hc1m : tracks.getD (p1 % tracks.length) default ∈ tracks :=
      getD_mod_mem tracks p1 hne
    have hsub1 : ∀ i ∈ [(tracks.getD (p1 % tracks.length) default).id],
        i ∈ tracks.map Track.id := by
      intro i hi
      rw [List.mem_singleton.mp hi]
      exact List.mem_map_of_mem Track.id hc1m
    have hlen1 : ([(tracks.getD (p1 % tracks.length) default).id] :
        List String).length + rest.length ≤ tracks.length := by
      simp only [List.length_singleton]
      simp only [List.length_cons] at hlen
      omega
    obtain ⟨results, eFin, hrun, hlenr, hused, hmem, hnd, hlast⟩ :=
      rotation_steps tracks hids rest
        ⟨d1, (tracks.getD (p1 % tracks.length) default).id,
          [(tracks.getD (p1 % tracks.length) default).id]⟩
        (List.nodup_singleton _) hsub1 hlen1 hsplit.1
    have hLsub : ∀ i ∈ [(tracks.getD (p1 % tracks.length) default).id] ++
        results.map Track.id, i ∈ tracks.map Track.id := by
      intro i hi
      rcases List.mem_append.mp hi with h | h
      · exact hsub1 i h
      · rcases List.mem_map.mp h with ⟨t, ht, hti⟩
        rw [← hti]
        exact List.mem_map_of_mem Track.id (hmem t ht)
    have hLlen : (tracks.map Track.id).length ≤
        ([(tracks.getD (p1 % tracks.length) default).id] ++
          results.map Track.id).length := by
      simp only [List.length_append, List.length_singleton, List.length_map]
      simp only [List.length_cons] at hlen
      omega
    have hperm : ([(tracks.getD (p1 % tracks.length) default).id] ++
        results.map Track.id).Perm (tracks.map Track.id) :=
      (List.subperm_of_subset hnd hLsub).perm_of_length_le hLlen
    have heFinLast : eFin.last_date ≠ dExtra := by
      rw [hlast]
      exact hlastne
    have hsdE : sameDayTrack tracks dExtra (some eFin) = none := by
      simp only [sameDayTrack]
      rw [if_neg heFinLast]
    have hfilE : tracks.filter (fun t => decide (t.id ∉ usedOf (some eFin)))
        = [] := by
      apply List.filter_eq_nil_iff.mpr
      intro t ht
      have hmemid : t.id ∈ eFin.used_track_ids := by
        rw [hused]
        exact hperm.mem_iff.mpr (List.mem_map_of_mem Track.id ht)
      intro hdec
      exact (of_decide_eq_true hdec) hmemid
    have havE : (tracks.filter
        (fun t => decide (t.id ∉ usedOf (some eFin)))).isEmpty = true := by
      rw [hfilE]
      rfl
    have hextra := choose_fresh_avail_empty tracks pExtra dExtra (some eFin)
      hne hsdE havE
    refine ⟨tracks.getD (p1 % tracks.length) default :: results, eFin,
      tracks.getD (pExtra % tracks.length) default,
      ⟨dExtra, (tracks.getD (pExtra % tracks.length) default).id,
        [(tracks.getD (pExtra % tracks.length) default).id]⟩, ?_, ?_, hextra,
      getD_mod_mem tracks pExtra hne, rfl⟩
    · show rotationRun tracks ((p1, d1) :: rest) none = _
      simp only [rotationRun, hfirst, hrun, List.map_cons]
    · simpa using hperm

end AdventBot

namespace AdventBot

/-- A one-track catalog not containing the stale id "1". -/
def tracksC4 : List Track := [mkTrack "2" "" "" "B"]

/-- A rotation state whose current track id "1" is no longer in the catalog. -/
def staleEntry : UserEntry := ⟨"2025-12-16", "1", ["1"]⟩

/-- C4 (counterexample): with `last_date` equal to today and a stored track
id missing from the catalog, the selection does not return `None`: it falls
through and returns a track. -/
theorem c4_stale_id_counterexample :
    staleEntry.last_date = "2025-12-16" ∧
    (tracksC4.map Track.id).contains staleEntry.track_id = false ∧
    (choose_track_for_user tracksC4 0 "2025-12-16" (some staleEntry)).1 ≠
      none := by
  refine ⟨rfl, by decide, by decide⟩

/-- C4 (amended): when `lastServedDate` equals today but the stored
`currentTrackId` matches no catalog entry, the operation does not crash and
does not return `None` for a non-empty catalog: the same-day lookup finds no
match and the call falls through to the normal selection path, returning a
freshly selected catalog track and overwriting the rotation state. -/
theorem c4_stale_id_falls_through (tracks : List Track) (p : Nat)
    (today : String) (e : UserEntry) (hne : tracks ≠ [])
    (hld : e.last_date = today) (hnm : ∀ t ∈ tracks, t.id ≠ e.track_id) :
    ∃ t e2, choose_track_for_user tracks p today (some e) =
        (some t, some e2) ∧ t ∈ tracks ∧ e2.last_date = today := by
  have hsd : sameDayTrack tracks today (some e) = none := by
    simp only [sameDayTrack]
    rw [if_pos hld]
    apply List.find?_eq_none.mpr
    intro x hx
    simp only [beq_iff_eq]
    exact hnm x hx
  obtain ⟨chosen, used3, hchm, heq⟩ :=
    choose_fresh_shape tracks p today (some e) hne hsd
  exact ⟨chosen, ⟨today, chosen.id, used3⟩, heq, hchm, rfl⟩

/-- C4 witness: the concrete stale state over the one-track catalog. -/
theorem c4_stale_id_falls_through_witness :
    tracksC4 ≠ [] ∧ staleEntry.last_date = "2025-12-16" ∧
    (∀ t ∈ tracksC4, t.id ≠ staleEntry.track_id) ∧
    ∃ t e2, choose_track_for_user tracksC4 0 "2025-12-16"
        (some staleEntry) = (some t, some e2) ∧ t ∈ tracksC4 ∧
        e2.last_date = "2025-12-16" :=
  ⟨by decide, rfl, by decide,
    c4_stale_id_falls_through tracksC4 0 "2025-12-16" staleEntry (by decide)
      rfl (by decide)⟩

/-- C3 witness: two calls on the demo catalog for the same date return the
same track. -/
theorem c3_same_day_idempotent_witness :
    (demoCatalog.map Track.id).Nodup ∧
    (choose_track_for_user demoCatalog 1 "2025-12-16"
        (choose_track_for_user demoCatalog 0 "2025-12-16" none).2).1 =
      (choose_track_for_user demoCatalog 0 "2025-12-16" none).1 :=
  ⟨by decide,
    c3_same_day_idempotent demoCatalog 0 1 "2025-12-16" none (by decide)⟩

/-- C5 witness: a full two-day cycle over the demo catalog followed by a
third day that resets the rotation. -/
theorem c5_full_rotation_cycle_witness :
    demoCatalog ≠ [] ∧ (demoCatalog.map Track.id).Nodup ∧
    ∃ (results : List Track) (eFin : UserEntry) (t : Track)
        (eNext : UserEntry),
      rotationRun demoCatalog [(0, "2025-12-16"), (0, "2025-12-17")] none =
        (results.map some, some eFin) ∧
      (results.map Track.id).Perm (demoCatalog.map Track.id) ∧
      choose_track_for_user demoCatalog 0 "2025-12-18" (some eFin) =
        (some t, some eNext) ∧
      t ∈ demoCatalog ∧ eNext.used_track_ids = [t.id] :=
  ⟨by decide, by decide,
    c5_full_rotation_cycle demoCatalog [(0, "2025-12-16"), (0, "2025-12-17")]
      0 "2025-12-18" (by decide) (by decide) (by decide)
      (List.chain'_cons.mpr ⟨by decide,
        List.chain'_cons.mpr ⟨by decide, List.chain'_singleton _⟩⟩)⟩

end AdventBot

namespace AdventBot

/-- Membership in an updated association list: the new pair or an old one. -/
theorem assocSet_mem {κ ε : Type} [DecidableEq κ] (l : List (κ × ε)) (c : κ)
    (e : ε) (p : κ × ε) (hp : p ∈ assocSet l c e) : p = (c, e) ∨ p ∈ l := by
  induction l with
  | nil =>
    left
    simpa [assocSet] using hp
  | cons q rest ih =>
    by_cases hq : q.1 = c
    · simp only [assocSet, if_pos hq] at hp
      rcases List.mem_cons.mp hp with h | h
      · exact Or.inl h
      · exact Or.inr (List.mem_cons_of_mem q h)
    · simp only [assocSet, if_neg hq] at hp
      rcases List.mem_cons.mp hp with h | h
      · exact Or.inr (h ▸ List.mem_cons_self q rest)
      · rcases ih h with h2 | h2
        · exact Or.inl h2
        · exact Or.inr (List.mem_cons_of_mem q h2)

/-- A successful association-list lookup is a member. -/
theorem assocGet_mem {κ ε : Type} [DecidableEq κ] (l : List (κ × ε)) (c : κ)
    (e : ε) (h : assocGet l c = some e) : (c, e) ∈ l := by
  induction l with
  | nil => simp [assocGet] at h
  | cons q rest ih =>
    by_cases hq : q.1 = c
    · simp only [assocGet, if_pos hq] at h
      have he : q.2 = e := Option.some.inj h
      rw [← hq, ← he]
      exact List.mem_cons_self q rest
    · simp only [assocGet, if_neg hq] at h
      exact List.mem_cons_of_mem q (ih h)

/-- The `likeCount == |voterIds|` invariant of the vote ledger: every entry
counts exactly its (duplicate-free) voter list. -/
def WFVotes (votes : Votes) : Prop :=
  ∀ p ∈ votes, p.2.likes = (p.2.voters.length : Int) ∧ p.2.voters.Nodup

/-- C6: a repeated vote for (t, v) returns ALREADY_VOTED and leaves the
ledger unchanged; a first vote returns ACCEPTED, adds the voter and
increments likes by one; voting twice is absorbed by the first vote (the
second call is a complete no-op); and the likeCount == |voterIds| invariant
is preserved by every vote operation. -/
theorem c6_vote_record_properties (votes : Votes) (t : String) (v : Int) :
    (v ∈ ((assocGet votes t).getD ⟨0, []⟩).voters →
      record_vote votes t v = (VoteResult.alreadyVoted, votes)) ∧
    (v ∉ ((assocGet votes t).getD ⟨0, []⟩).voters →
      (record_vote votes t v).1 = VoteResult.accepted ∧
      assocGet (record_vote votes t v).2 t =
        some ⟨((assocGet votes t).getD ⟨0, []⟩).likes + 1,
          ((assocGet votes t).getD ⟨0, []⟩).voters ++ [v]⟩) ∧
    record_vote (record_vote votes t v).2 t v =
      (VoteResult.alreadyVoted, (record_vote votes t v).2) ∧
    (WFVotes votes → WFVotes (record_vote votes t v).2) := by
  refine ⟨?_, ?_, ?_, ?_⟩
  · intro h
    simp only [record_vote, if_pos h]
  · intro h
    have h1 : record_vote votes t v =
        (VoteResult.accepted,
          assocSet votes t ⟨((assocGet votes t).getD ⟨0, []⟩).likes + 1,
            ((assocGet votes t).getD ⟨0, []⟩).voters ++ [v]⟩) := by
      simp only [record_vote, if_neg h]
    rw [h1]
    exact ⟨rfl, assocGet_assocSet_self votes t _⟩
  · by_cases h : v ∈ ((assocGet votes t).getD ⟨0, []⟩).voters
    · have h1 : record_vote votes t v = (VoteResult.alreadyVoted, votes) := by
        simp only [record_vote, if_pos h]
      rw [h1]
      simp only [record_vote, if_pos h]
    · have h1 : (record_vote votes t v).2 =
          assocSet votes t ⟨((assocGet votes t).getD ⟨0, []⟩).likes + 1,
            ((assocGet votes t).getD ⟨0, []⟩).voters ++ [v]⟩ := by
        simp only [record_vote, if_neg h]
      rw [h1]
      have h2 : assocGet (assocSet votes t
          (⟨((assocGet votes t).getD ⟨0, []⟩).likes + 1,
            ((assocGet votes t).getD ⟨0, []⟩).voters ++ [v]⟩ : VoteEntry)) t =
          some ⟨((assocGet votes t).getD ⟨0, []⟩).likes + 1,
            ((assocGet votes t).getD ⟨0, []⟩).voters ++ [v]⟩ :=
        assocGet_assocSet_self votes t _
      have hv : v ∈ ((assocGet (assocSet votes t
          (⟨((assocGet votes t).getD ⟨0, []⟩).likes + 1,
            ((assocGet votes t).getD ⟨0, []⟩).voters ++ [v]⟩ : VoteEntry)) t).getD
          ⟨0, []⟩).voters := by
        rw [h2]
        exact List.mem_append_right _ (List.mem_singleton_self v)
      simp only [record_vote, if_pos hv]
  · intro hwf
    by_cases h : v ∈ ((assocGet votes t).getD ⟨0, []⟩).voters
    · have h1 : record_vote votes t v = (VoteResult.alreadyVoted, votes) := by
        simp only [record_vote, if_pos h]
      rw [h1]
      exact hwf
    · have h1 : (record_vote votes t v).2 =
          assocSet votes t ⟨((assocGet votes t).getD ⟨0, []⟩).likes + 1,
            ((assocGet votes t).getD ⟨0, []⟩).voters ++ [v]⟩ := by
        simp only [record_vote, if_neg h]
      rw [h1]
      intro p hp
      rcases assocSet_mem votes t _ p hp with h2 | h2
      · subst h2
        cases hg : assocGet votes t with
        | none =>
          exact ⟨by simp, by simp⟩
        | some e0 =>
          have hwf0 := hwf (t, e0) (assocGet_mem votes t e0 hg)
          rw [hg] at h
          simp only [Option.getD_some] at h ⊢
          constructor
          · simp only [List.length_append, List.length_singleton]
            rw [hwf0.1]
            push_cast
            ring
          · exact List.Nodup.append hwf0.2 (List.nodup_singleton v)
              (List.disjoint_singleton.mpr h)
      · exact hwf p h2

/-- C6 witness: the spec's scenario — first vote ACCEPTED with likes 1,
second identical vote a no-op, invariant holds. -/
theorem c6_vote_record_properties_witness :
    ((100 : Int) ∉ ((assocGet ([] : Votes) "1").getD ⟨0, []⟩).voters) ∧
    ((record_vote ([] : Votes) "1" 100).1 = VoteResult.accepted ∧
      assocGet (record_vote ([] : Votes) "1" 100).2 "1" =
        some ⟨((assocGet ([] : Votes) "1").getD ⟨0, []⟩).likes + 1,
          ((assocGet ([] : Votes) "1").getD ⟨0, []⟩).voters ++ [100]⟩) ∧
    record_vote (record_vote ([] : Votes) "1" 100).2 "1" 100 =
      (VoteResult.alreadyVoted, (record_vote ([] : Votes) "1" 100).2) ∧
    WFVotes (record_vote ([] : Votes) "1" 100).2 :=
  ⟨by decide, (c6_vote_record_properties [] "1" 100).2.1 (by decide),
    (c6_vote_record_properties [] "1" 100).2.2.1,
    (c6_vote_record_properties [] "1" 100).2.2.2
      (fun p hp => absurd hp (List.not_mem_nil p))⟩

end AdventBot

namespace AdventBot

/-- Inserting into the descending-stable order: the entries with a fixed
like-count keep their relative order, the inserted element going first among
its ties. -/
theorem filter_orderedInsert_key (k : Int) (a : Int × Track)
    (l : List (Int × Track)) :
    (List.orderedInsert (fun x y => y.1 ≤ x.1) a l).filter
        (fun p => decide (p.1 = k)) =
      if a.1 = k then a :: l.filter (fun p => decide (p.1 = k))
      else l.filter (fun p => decide (p.1 = k)) := by
  induction l with
  | nil =>
    by_cases hk : a.1 = k
    · simp [List.orderedInsert, List.filter, hk]
    · simp [List.orderedInsert, List.filter, hk]
  | cons b s ih =>
    by_cases hr : b.1 ≤ a.1
    · simp only [List.orderedInsert, if_pos hr]
      by_cases hk : a.1 = k
      · simp [List.filter, hk]
      · simp [List.filter, hk]
    · simp only [List.orderedInsert, if_neg hr]
      by_cases hbk : b.1 = k
      · have hak : ¬ a.1 = k := by
          intro he
          exact hr (le_of_eq (by rw [hbk, he]))
        simp [List.filter, hbk, hak, ih]
      · by_cases hak : a.1 = k
        · simp [List.filter, hbk, hak, ih]
        · simp [List.filter, hbk, hak, ih]

/-- Stability of the descending sort used by `build_top5_text`: filtering
the sorted list at a fixed like-count gives the same sequence as filtering
the unsorted scored list. -/
theorem filter_insertionSort_key (k : Int) (l : List (Int × Track)) :
    (List.insertionSort (fun x y => y.1 ≤ x.1) l).filter
        (fun p => decide (p.1 = k)) = l.filter (fun p => decide (p.1 = k)) := by
  induction l with
  | nil => rfl
  | cons a s ih =>
    simp only [List.insertionSort]
    rw [filter_orderedInsert_key]
    by_cases hk : a.1 = k
    · rw [if_pos hk, ih]
      simp [List.filter, hk]
    · rw [if_neg hk, ih]
      simp [List.filter, hk]

/-- C7 (amended): the ranked list contains at most 5 entries; every entry
has a positive like-count taken from a vote-ledger record whose track id is
still in the catalog; entries are sorted by like-count descending; and ties
keep the vote-ledger iteration order (the sort is stable over the
ledger-order join), the result being the first five of that stable sort. -/
theorem c7_top5_ranking (tracks : List Track) (votes : Votes) :
    (build_top5_scored tracks votes).length ≤ 5 ∧
    (∀ p ∈ build_top5_scored tracks votes,
      0 < p.1 ∧ ∃ tid entry, (tid, entry) ∈ votes ∧ entry.likes = p.1 ∧
        trackById tracks tid = some p.2) ∧
    (build_top5_scored tracks votes).Pairwise (fun a b => b.1 ≤ a.1) ∧
    (∀ k : Int, (sortedScored tracks votes).filter (fun p => decide (p.1 = k))
      = (scoredJoin tracks votes).filter (fun p => decide (p.1 = k))) ∧
    build_top5_scored tracks votes = (sortedScored tracks votes).take 5 := by
  refine ⟨List.length_take_le 5 _, ?_, ?_, ?_, rfl⟩
  · intro p hp
    have hp2 : p ∈ sortedScored tracks votes :=
      List.mem_of_mem_take hp
    have hp3 : p ∈ scoredJoin tracks votes :=
      (List.perm_insertionSort (fun x y : Int × Track => y.1 ≤ x.1)
        (scoredJoin tracks votes)).mem_iff.mp hp2
    rcases List.mem_filterMap.mp hp3 with ⟨q, hq, hf⟩
    by_cases hle : q.2.likes ≤ 0
    · rw [if_pos hle] at hf
      exact absurd hf (by simp)
    · rw [if_neg hle] at hf
      rcases Option.map_eq_some'.mp hf with ⟨tr, htr, hpe⟩
      refine ⟨?_, q.1, q.2, hq, ?_, ?_⟩
      · rw [← hpe]
        omega
      · rw [← hpe]
      · rw [htr, ← hpe]
  · haveI : IsTotal (Int × Track) (fun x y : Int × Track => y.1 ≤ x.1) :=
      ⟨fun a b => le_total b.1 a.1⟩
    haveI : IsTrans (Int × Track) (fun x y : Int × Track => y.1 ≤ x.1) :=
      ⟨fun a b c hab hbc => le_trans hbc hab⟩
    exact List.Pairwise.sublist (List.take_sublist 5 _)
      (List.sorted_insertionSort (fun x y : Int × Track => y.1 ≤ x.1)
        (scoredJoin tracks votes))
  · intro k
    exact filter_insertionSort_key k _

/-- The vote ledger of the tie-break counterexample: two tracks tied at one
like each, listed in the ledger in the order "2" then "1". -/
def votesC7 : Votes := [("2", ⟨1, [7]⟩), ("1", ⟨1, [8]⟩)]

/-- C7 (counterexample): with two tied tracks whose ledger order is the
reverse of the catalog order, the ranking keeps the ledger order — the tie
is not broken by catalog iteration order. -/
theorem c7_tie_order_counterexample :
    build_top5_scored demoCatalog votesC7 =
      [(1, mkTrack "2" "2025-12-16" "1" "B"),
        (1, mkTrack "1" "2025-12-16" "1" "A")] ∧
    ([(1, mkTrack "2" "2025-12-16" "1" "B"),
        (1, mkTrack "1" "2025-12-16" "1" "A")] :
      List (Int × Track)) ≠
      [(1, mkTrack "1" "2025-12-16" "1" "A"),
        (1, mkTrack "2" "2025-12-16" "1" "B")] := by
  constructor
  · decide
  · decide

/-- C7 witness: the amended properties evaluated on the tied-vote ledger. -/
theorem c7_top5_ranking_witness :
    (build_top5_scored demoCatalog votesC7).length ≤ 5 ∧
    (sortedScored demoCatalog votesC7).filter (fun p => decide (p.1 = 1)) =
      (scoredJoin demoCatalog votesC7).filter (fun p => decide (p.1 = 1)) :=
  ⟨(c7_top5_ranking demoCatalog votesC7).1,
    (c7_top5_ranking demoCatalog votesC7).2.2.2.1 1⟩

end AdventBot

namespace AdventBot

/-- In force mode with an all-success transport, the TOP5 loop delivers to
every pending chat, never skips, and leaves both stores untouched. -/
theorem top5Loop_force_all_success (sbT : Int → SendOutcome) (iso : String)
    (pending : List Int) :
    ∀ (store : List Int) (log : BroadcastLog),
      (∀ c ∈ pending, sbT c = SendOutcome.success) →
      top5Loop sbT true iso pending store log =
        (store, log, pending.length, 0, pending) := by
  induction pending with
  | nil =>
    intro store log _
    rfl
  | cons c rest ih =>
    intro store log hall
    have hc : sbT c = SendOutcome.success := hall c (List.mem_cons_self c rest)
    have hr := ih store log (fun x hx => hall x (List.mem_cons_of_mem c hx))
    simp only [top5Loop, Bool.not_true, Bool.false_and, Bool.false_eq_true,
      if_false, hc, if_true, hr, List.length_cons]

/-- In non-force mode, a chat already marked TOP5 for today is never
delivered to by the TOP5 loop. -/
theorem top5Loop_marked_not_delivered (sbT : Int → SendOutcome) (iso : String)
    (pending : List Int) :
    ∀ (store : List Int) (log : BroadcastLog) (c : Int),
      markedB log c iso "TOP5" = true →
      c ∉ (top5Loop sbT false iso pending store log).2.2.2.2 := by
  induction pending with
  | nil =>
    intro store log c _ h
    exact absurd h (List.not_mem_nil c)
  | cons h rest ih =>
    intro store log c hm
    by_cases hmh : "TOP5" ∈ (resetEntry log h iso).sent_slots
    · have hcond : (!false && decide ("TOP5" ∈ (resetEntry log h iso).sent_slots)) = true := by
        simp [hmh]
      simp only [top5Loop, hcond, if_true]
      exact ih store log c hm
    · have hcond : (!false && decide ("TOP5" ∈ (resetEntry log h iso).sent_slots)) = false := by
        simp [hmh]
      simp only [top5Loop, hcond, Bool.false_eq_true, if_false]
      cases hout : sbT h with
      | success =>
        have hne : c ≠ h := by
          intro he
          rw [he] at hm
          exact hmh ((markedB_eq_mem log h iso "TOP5").mp hm)
        have hm2 : markedB (assocSet log h
            ⟨(resetEntry log h iso).last_date,
              (resetEntry log h iso).sent_slots ++ ["TOP5"]⟩) c iso "TOP5"
            = true := by
          rw [markedB_assocSet_ne log h c _ iso "TOP5" hne]
          exact hm
        simp only [Bool.false_eq_true, if_false]
        intro hmem
        rcases List.mem_cons.mp hmem with he | hrec
        · exact hne he
        · exact ih _ _ c hm2 hrec
      | forbidden => exact ih _ _ c hm
      | badRequest => exact ih _ _ c hm
      | otherError => exact ih _ _ c hm

/-- In non-force mode, a pending chat already marked TOP5 for today makes
the loop's skip counter positive. -/
theorem top5Loop_marked_skipped (sbT : Int → SendOutcome) (iso : String)
    (pending : List Int) :
    ∀ (store : List Int) (log : BroadcastLog) (c : Int),
      c ∈ pending → markedB log c iso "TOP5" = true →
      1 ≤ (top5Loop sbT false iso pending store log).2.2.2.1 := by
  induction pending with
  | nil =>
    intro store log c hmem _
    exact absurd hmem (List.not_mem_nil c)
  | cons h rest ih =>
    intro store log c hmem hm
    by_cases hmh : "TOP5" ∈ (resetEntry log h iso).sent_slots
    · have hcond : (!false && decide ("TOP5" ∈ (resetEntry log h iso).sent_slots)) = true := by
        simp [hmh]
      simp only [top5Loop, hcond, if_true]
      omega
    · have hne : c ≠ h := by
        intro he
        rw [he] at hm
        exact hmh ((markedB_eq_mem log h iso "TOP5").mp hm)
      have hcrest : c ∈ rest := by
        rcases List.mem_cons.mp hmem with he | hrec
        · exact absurd he hne
        · exact hrec
      have hcond : (!false && decide ("TOP5" ∈ (resetEntry log h iso).sent_slots)) = false := by
        simp [hmh]
      simp only [top5Loop, hcond, Bool.false_eq_true, if_false]
      cases hout : sbT h with
      | success =>
        have hm2 : markedB (assocSet log h
            ⟨(resetEntry log h iso).last_date,
              (resetEntry log h iso).sent_slots ++ ["TOP5"]⟩) c iso "TOP5"
            = true := by
          rw [markedB_assocSet_ne log h c _ iso "TOP5" hne]
          exact hm
        simp only [Bool.false_eq_true, if_false]
        exact ih _ _ c hcrest hm2
      | forbidden => exact ih _ _ c hcrest hm
      | badRequest => exact ih _ _ c hcrest hm
      | otherError => exact ih _ _ c hcrest hm

/-- C8: the TOP5 ranking broadcast in force mode delivers to every
subscriber regardless of the "TOP5" tag (idempotent-skip bypassed), skips
nobody, and leaves the broadcast log unchanged and unpersisted; in
non-force mode a subscriber whose entry already contains "TOP5" for today
is skipped — never delivered to, and counted in the skip counter. -/
theorem c8_top5_force_and_skip (sbT : Int → SendOutcome) (iso : String)
    (store : List Int) (log : BroadcastLog)
    (hall : ∀ c ∈ store, sbT c = SendOutcome.success) :
    ((broadcast_top5_to_all sbT true iso store log).delivered = store ∧
      (broadcast_top5_to_all sbT true iso store log).log = log ∧
      (broadcast_top5_to_all sbT true iso store log).persisted = false ∧
      (broadcast_top5_to_all sbT true iso store log).sent = store.length ∧
      (broadcast_top5_to_all sbT true iso store log).skipped = 0) ∧
    (∀ c ∈ store, markedB log c iso "TOP5" = true →
      c ∉ (broadcast_top5_to_all sbT false iso store log).delivered ∧
      1 ≤ (broadcast_top5_to_all sbT false iso store log).skipped) := by
  by_cases hst : store = []
  · subst hst
    refine ⟨⟨rfl, rfl, rfl, rfl, rfl⟩, ?_⟩
    intro c hc
    exact absurd hc (List.not_mem_nil c)
  · have hie : store.isEmpty = false := by simp [List.isEmpty_iff, hst]
    constructor
    · have hloop := top5Loop_force_all_success sbT iso store store log hall
      unfold broadcast_top5_to_all
      rw [hie]
      simp [hloop]
    · intro c hc hm
      constructor
      · have hnd := top5Loop_marked_not_delivered sbT iso store store log c hm
        unfold broadcast_top5_to_all
        rw [hie]
        simpa using hnd
      · have hsk := top5Loop_marked_skipped sbT iso store store log c hc hm
        unfold broadcast_top5_to_all
        rw [hie]
        simpa using hsk

/-- An all-success per-chat transport for the TOP5 message. -/
def sendTopOk : Int → SendOutcome := fun _ => .success

/-- A broadcast log in which chat 100 already received TOP5 today. -/
def logC8 : BroadcastLog := [(100, ⟨"2025-12-26", ["TOP5"]⟩)]

/-- C8 witness: over subscribers 100 and 200 with 100 already marked, force
mode delivers to both without touching the log; non-force mode skips 100. -/
theorem c8_top5_force_and_skip_witness :
    ((broadcast_top5_to_all sendTopOk true "2025-12-26" [100, 200]
        logC8).delivered = [100, 200] ∧
      (broadcast_top5_to_all sendTopOk true "2025-12-26" [100, 200]
        logC8).log = logC8 ∧
      (broadcast_top5_to_all sendTopOk true "2025-12-26" [100, 200]
        logC8).persisted = false ∧
      (broadcast_top5_to_all sendTopOk true "2025-12-26" [100, 200]
        logC8).sent = [100, 200].length ∧
      (broadcast_top5_to_all sendTopOk true "2025-12-26" [100, 200]
        logC8).skipped = 0) ∧
    ((100 : Int) ∉ (broadcast_top5_to_all sendTopOk false "2025-12-26"
        [100, 200] logC8).delivered ∧
      1 ≤ (broadcast_top5_to_all sendTopOk false "2025-12-26" [100, 200]
        logC8).skipped) :=
  ⟨(c8_top5_force_and_skip sendTopOk "2025-12-26" [100, 200] logC8
      (by decide)).1,
    (c8_top5_force_and_skip sendTopOk "2025-12-26" [100, 200] logC8
      (by decide)).2 100 (by decide) (by decide)⟩

end AdventBot
